import Mathlib

/-!
Verification of the calculator core in `src/main.py` (class `CalculatorApp`).

The Python code works on IEEE-754 doubles; the embedding replaces finite doubles
by exact rationals and keeps the special values (positive/negative infinity and
NaN) as explicit constructors, so that the special-value policy of the code
(division by zero, the error sentinel of `_format_number`) is modelled exactly
while finite arithmetic is idealised as exact.  Strings are Lean `String`s;
the character-level edits of the Python code (`s[:-1]`, `s[1:]`, `startswith`,
`in`) are modelled on `String.data`.
-/

set_option maxRecDepth 4000

attribute [local semireducible] Rat.add Rat.sub Rat.mul Rat.inv Rat.ofScientific

namespace Calc

/-- The four binary operators (`'+'`, `'-'`, `'*'`, `'/'` in the source). -/
inductive Op where
  | add
  | sub
  | mul
  | div
deriving DecidableEq, Repr

/-- A Python `float` value: a finite value (idealised as an exact rational),
positive infinity, negative infinity, or NaN. -/
inductive FloatVal where
  | finite (q : ℚ)
  | posInf
  | negInf
  | nan
deriving DecidableEq, Repr

namespace FloatVal

/-- Python float addition (`a + b`) on the embedded values. -/
def pyAdd : FloatVal → FloatVal → FloatVal
  | nan, _ => nan
  | _, nan => nan
  | posInf, negInf => nan
  | negInf, posInf => nan
  | posInf, _ => posInf
  | _, posInf => posInf
  | negInf, _ => negInf
  | _, negInf => negInf
  | finite x, finite y => finite (x + y)

/-- Python float negation (`-a`). -/
def pyNeg : FloatVal → FloatVal
  | nan => nan
  | posInf => negInf
  | negInf => posInf
  | finite x => finite (-x)

/-- Python float subtraction (`a - b`). -/
def pySub (a b : FloatVal) : FloatVal := pyAdd a (pyNeg b)

/-- Python float multiplication (`a * b`). -/
def pyMul : FloatVal → FloatVal → FloatVal
  | nan, _ => nan
  | _, nan => nan
  | posInf, posInf => posInf
  | posInf, negInf => negInf
  | negInf, posInf => negInf
  | negInf, negInf => posInf
  | posInf, finite y => if y = 0 then nan else if 0 < y then posInf else negInf
  | finite x, posInf => if x = 0 then nan else if 0 < x then posInf else negInf
  | negInf, finite y => if y = 0 then nan else if 0 < y then negInf else posInf
  | finite x, negInf => if x = 0 then nan else if 0 < x then negInf else posInf
  | finite x, finite y => finite (x * y)

/-- Python float division (`a / b`) for a non-zero divisor.  Python raises
`ZeroDivisionError` when `b == 0.0`; every call site with a possibly zero
divisor guards for that (see `apply_operator`), so the `finite 0` divisor
case of this function is unreachable and its value is immaterial. -/
def pyDiv : FloatVal → FloatVal → FloatVal
  | nan, _ => nan
  | _, nan => nan
  | posInf, posInf => nan
  | posInf, negInf => nan
  | negInf, posInf => nan
  | negInf, negInf => nan
  | posInf, finite y => if y = 0 then posInf else if 0 < y then posInf else negInf
  | negInf, finite y => if y = 0 then posInf else if 0 < y then negInf else posInf
  | finite _, posInf => finite 0
  | finite _, negInf => finite 0
  | finite x, finite y => if y = 0 then posInf else finite (x / y)

end FloatVal

open FloatVal

/-- `CalculatorApp._apply_operator(a, b, op)`: the four arithmetic branches,
with the `except ZeroDivisionError: return float("inf")` policy — Python
raises exactly when the divisor compares equal to `0.0`.  (The trailing
`return b` of the source is dead code for the four operators modelled here.) -/
def apply_operator (a b : FloatVal) (op : Op) : FloatVal :=
  match op with
  | Op.add => pyAdd a b
  | Op.sub => pySub a b
  | Op.mul => pyMul a b
  | Op.div => if b = finite 0 then posInf else pyDiv a b

/-- Numeric value of one decimal digit character. -/
def digitVal (c : Char) : ℕ := c.toNat - 48

/-- Value of a string of decimal digit characters, most significant first. -/
def natOfDigits (l : List Char) : ℕ := l.foldl (fun a c => 10 * a + digitVal c) 0

/-- Split an optional leading sign off a character list; returns
(`true` iff the sign was `'-'`, remaining characters). -/
def splitSign : List Char → Bool × List Char
  | '-' :: cs => (true, cs)
  | '+' :: cs => (false, cs)
  | cs => (false, cs)

/-- The mantissa part of a Python float literal: digits, optionally followed
by `'.'` and further digits, with at least one digit overall. -/
def parseMantissa (cs : List Char) : Option ℚ :=
  let ip := cs.takeWhile Char.isDigit
  let rest := cs.dropWhile Char.isDigit
  match rest with
  | [] => if ip.isEmpty then none else some (natOfDigits ip)
  | '.' :: fp =>
    if fp.all Char.isDigit ∧ ¬(ip.isEmpty ∧ fp.isEmpty) then
      some ((natOfDigits ip : ℚ) + (natOfDigits fp : ℚ) / (10 : ℚ) ^ fp.length)
    else none
  | _ => none

/-- The exponent part of a Python float literal (after the `e`/`E`):
an optional sign followed by at least one digit. -/
def parseExpPart (cs : List Char) : Option ℤ :=
  let sd := splitSign cs
  if ¬sd.2.isEmpty ∧ sd.2.all Char.isDigit then
    some (if sd.1 then -(natOfDigits sd.2 : ℤ) else (natOfDigits sd.2 : ℤ))
  else none

/-- Model of Python's `float(str)` conversion on the strings this program can
produce: an optional sign, then either the case-insensitive literals
`inf`/`infinity`/`nan` or a decimal mantissa with an optional exponent.
Returns `none` exactly when Python raises `ValueError`. -/
def pyFloat (str : String) : Option FloatVal :=
  let sr := splitSign str.data
  let neg := sr.1
  let low := sr.2.map Char.toLower
  if low = ['i', 'n', 'f'] ∨ low = ['i', 'n', 'f', 'i', 'n', 'i', 't', 'y'] then
    some (if neg then FloatVal.negInf else FloatVal.posInf)
  else if low = ['n', 'a', 'n'] then
    some FloatVal.nan
  else
    let mant := sr.2.takeWhile (fun c => !(c == 'e' || c == 'E'))
    let expRest := sr.2.dropWhile (fun c => !(c == 'e' || c == 'E'))
    match parseMantissa mant with
    | none => none
    | some m =>
      match expRest with
      | [] => some (FloatVal.finite ((if neg then -1 else 1) * m))
      | _ :: ecs =>
        match parseExpPart ecs with
        | none => none
        | some e => some (FloatVal.finite ((if neg then -1 else 1) * m * (10 : ℚ) ^ e))

/-- `self.current.replace(",", ".")` — used by `percent` before parsing. -/
def replaceComma (s : String) : String :=
  String.mk (s.data.map fun c => if c = ',' then '.' else c)

/-- Character for one decimal digit. -/
def digitChar (n : ℕ) : Char :=
  if n = 1 then '1' else if n = 2 then '2' else if n = 3 then '3'
  else if n = 4 then '4' else if n = 5 then '5' else if n = 6 then '6'
  else if n = 7 then '7' else if n = 8 then '8' else if n = 9 then '9' else '0'

/-- Little-endian decimal digit characters of `n` (empty for `0`);
`fuel` bounds the recursion and any value `≥ n` is enough. -/
def natDigitsRev : ℕ → ℕ → List Char
  | 0, _ => []
  | fuel + 1, n => if n = 0 then [] else digitChar (n % 10) :: natDigitsRev fuel (n / 10)

/-- Decimal rendering of a natural number, most significant digit first. -/
def natStr (n : ℕ) : List Char := if n = 0 then ['0'] else (natDigitsRev (n + 1) n).reverse

/-- Left-pad a digit string with `'0'` to width `w`. -/
def padLeft (w : ℕ) (l : List Char) : List Char := List.replicate (w - l.length) '0' ++ l

/-- Python's `str.rstrip(c)` for a single character `c`. -/
def stripTrail (c : Char) (l : List Char) : List Char := (l.reverse.dropWhile (· == c)).reverse

/-- `.rstrip("0").rstrip(".")` as used by `_format_number`. -/
def rstrip0dot (l : List Char) : List Char := stripTrail '.' (stripTrail '0' l)

/-- Round a rational to the nearest integer, ties to even — the rounding used
when printf converts a double to a shorter decimal. -/
def roundHalfEven (q : ℚ) : ℤ :=
  let n := ⌊q⌋
  let r := q - (n : ℚ)
  if r < 1 / 2 then n else if 1 / 2 < r then n + 1 else if n % 2 = 0 then n else n + 1

/-- Decimal exponent search for `1 ≤ q`: number of times `q` can be divided
by ten before dropping below ten.  `fuel ≥` that count suffices. -/
def expGe1 : ℕ → ℚ → ℕ
  | 0, _ => 0
  | fuel + 1, q => if q < 10 then 0 else expGe1 fuel (q / 10) + 1

/-- Decimal exponent search for `0 < q < 1`: number of times `q` must be
multiplied by ten to reach at least one. -/
def expLt1 : ℕ → ℚ → ℕ
  | 0, _ => 0
  | fuel + 1, q => if 1 ≤ q then 0 else expLt1 fuel (q * 10) + 1

/-- Decimal exponent of a positive rational: the `X` with `10^X ≤ q < 10^(X+1)`
(for the fuel bounds used here). -/
def decExp (q : ℚ) : ℤ :=
  if 1 ≤ q then (expGe1 (q.num.natAbs + 1) q : ℤ) else -(expLt1 q.den q : ℤ)

/-- Round a positive rational to `p` significant decimal digits: returns the
`p`-digit mantissa and the decimal exponent of the rounded value. -/
def sigRound (p : ℕ) (q : ℚ) : ℤ × ℤ :=
  let X := decExp q
  let m := roundHalfEven (q * (10 : ℚ) ^ ((p : ℤ) - 1 - X))
  if (10 : ℤ) ^ p ≤ m then (m / 10, X + 1) else (m, X)

/-- Place the decimal point into a significant-digit string `ds` according to
the decimal exponent `X` (fixed-point styles of `%g`/`%e` conversions). -/
def fixedStr (ds : List Char) (X : ℤ) : List Char :=
  if 0 ≤ X then
    let k := X.toNat + 1
    let fp := ds.drop k
    if fp.isEmpty then ds.take k else ds.take k ++ '.' :: fp
  else
    '0' :: '.' :: (List.replicate ((-X).toNat - 1) '0' ++ ds)

/-- Exponent field of a scientific rendering: sign and at least two digits. -/
def expoStr (X : ℤ) : List Char :=
  let ds := natStr X.natAbs
  (if X < 0 then '-' else '+') :: (if ds.length < 2 then '0' :: ds else ds)

/-- `"%0.<p>g" % q` for a finite value: `p` significant digits, fixed-point
style for decimal exponents in `[-4, p)` and scientific style otherwise,
trailing fractional zeros (and a then-trailing point) removed. -/
def fmtGFin (p : ℕ) (q : ℚ) : List Char :=
  if q = 0 then ['0']
  else
    let sgn : List Char := if q < 0 then ['-'] else []
    let mX := sigRound p |q|
    if -4 ≤ mX.2 ∧ mX.2 < (p : ℤ) then
      let body := fixedStr (natStr mX.1.natAbs) mX.2
      sgn ++ (if body.contains '.' then rstrip0dot body else body)
    else
      match natStr mX.1.natAbs with
      | [] => sgn ++ ['0']
      | d :: rest =>
        let rest2 := stripTrail '0' rest
        sgn ++ d :: ((if rest2.isEmpty then [] else '.' :: rest2) ++ 'e' :: expoStr mX.2)

/-- `"%0.<p>f" % q` for a finite value: fixed point with exactly `p`
fractional digits. -/
def fmtFFin (p : ℕ) (q : ℚ) : List Char :=
  let sgn : List Char := if q < 0 then ['-'] else []
  let M := (roundHalfEven (|q| * (10 : ℚ) ^ (p : ℕ))).natAbs
  sgn ++ natStr (M / 10 ^ p) ++ '.' :: padLeft p (natStr (M % 10 ^ p))

/-- `"%0.<p>e" % q` for a finite value: scientific with exactly `p`
fractional digits. -/
def fmtEFin (p : ℕ) (q : ℚ) : List Char :=
  if q = 0 then '0' :: '.' :: (List.replicate p '0' ++ ['e', '+', '0', '0'])
  else
    let sgn : List Char := if q < 0 then ['-'] else []
    let mX := sigRound (p + 1) |q|
    match natStr mX.1.natAbs with
    | [] => sgn ++ ['0']
    | d :: rest => sgn ++ d :: '.' :: (rest ++ 'e' :: expoStr mX.2)

/-- `"%0.<p>g" % value` including the special values (printf renders the
infinities and NaN as `inf`/`-inf`/`nan`). -/
def fmtG (p : ℕ) : FloatVal → List Char
  | FloatVal.finite q => fmtGFin p q
  | FloatVal.posInf => ['i', 'n', 'f']
  | FloatVal.negInf => ['-', 'i', 'n', 'f']
  | FloatVal.nan => ['n', 'a', 'n']

/-- `"%0.<p>f" % value` including the special values. -/
def fmtF (p : ℕ) : FloatVal → List Char
  | FloatVal.finite q => fmtFFin p q
  | FloatVal.posInf => ['i', 'n', 'f']
  | FloatVal.negInf => ['-', 'i', 'n', 'f']
  | FloatVal.nan => ['n', 'a', 'n']

/-- `"%0.<p>e" % value` including the special values. -/
def fmtE (p : ℕ) : FloatVal → List Char
  | FloatVal.finite q => fmtEFin p q
  | FloatVal.posInf => ['i', 'n', 'f']
  | FloatVal.negInf => ['-', 'i', 'n', 'f']
  | FloatVal.nan => ['n', 'a', 'n']

/-- The error sentinel string shown by the display (`"Ошибка"`). -/
def errStr : String := "Ошибка"

/-- `CalculatorApp._format_number(value)` at the character-list level.
The guard `value == float("inf") or value != value` is true exactly for
positive infinity and NaN; then `"%0.12g"`, the re-rendering through
`"%0.12f"` when an exponent marker appears, zero stripping when a point is
present, and the final `"%0.6e"` length guard. -/
def formatChars (v : FloatVal) : List Char :=
  if v = FloatVal.posInf ∨ v = FloatVal.nan then errStr.data
  else
    let s := fmtG 12 v
    let s := if s.contains 'e' || s.contains 'E' then rstrip0dot (fmtF 12 v) else s
    let s := if s.contains '.' then rstrip0dot s else s
    if 12 < s.length then fmtE 6 v else s

/-- `CalculatorApp._format_number(value)` as a string. -/
def format_number (v : FloatVal) : String := String.mk (formatChars v)

/-- The mutable state of `CalculatorApp` (the UI widgets are out of scope). -/
structure CalcState where
  acc : FloatVal
  current : String
  operator : Option Op
  last_operator : Option Op
  last_operand : Option FloatVal
  just_evaluated : Bool
  awaiting_operand : Bool
  has_input : Bool
deriving DecidableEq, Repr

/-- `CalculatorApp.reset_all`. -/
def reset_all : CalcState where
  acc := FloatVal.finite 0
  current := "0"
  operator := none
  last_operator := none
  last_operand := none
  just_evaluated := false
  awaiting_operand := false
  has_input := false

/-- `CalculatorApp._set_current(text)`: store the text and recompute
`has_input = (text != "0")`. -/
def set_current (s : CalcState) (text : String) : CalcState :=
  { s with current := text, has_input := decide (text ≠ "0") }

/-- `CalculatorApp._append_digit(d)` for a digit character `d`. -/
def append_digit (s : CalcState) (d : Char) : CalcState :=
  let s := if s.just_evaluated ∧ s.operator = none then reset_all else s
  let s := { s with just_evaluated := false }
  let s :=
    if s.awaiting_operand then
      { s with current := "0", has_input := false, awaiting_operand := false }
    else s
  if s.current = "-0" ∨ s.current = "0" then
    let base : String := if s.current.data.head? = some '-' then "-" else ""
    set_current s (base ++ String.mk [d])
  else
    set_current s (s.current ++ String.mk [d])

/-- `CalculatorApp.input_dot`. -/
def input_dot (s : CalcState) : CalcState :=
  let s := if s.just_evaluated ∧ s.operator = none then reset_all else s
  let s := { s with just_evaluated := false }
  let s :=
    if s.awaiting_operand then
      { s with current := "0", has_input := false, awaiting_operand := false }
    else s
  if s.current.data.contains '.' then s else set_current s (s.current ++ ".")

/-- `CalculatorApp.toggle_sign`. -/
def toggle_sign (s : CalcState) : CalcState :=
  if s.current.data.head? = some '-' then set_current s (String.mk s.current.data.tail)
  else if s.current ≠ "0" then set_current s ("-" ++ s.current)
  else s

/-- `CalculatorApp.percent`: parse (commas normalised to points, `ValueError`
aborts the handler), divide by 100 or take the percentage of the accumulator,
format, store. -/
def percent (s : CalcState) : CalcState :=
  match pyFloat (replaceComma s.current) with
  | none => s
  | some cur0 =>
    let cur :=
      match s.operator with
      | none => pyDiv cur0 (FloatVal.finite 100)
      | some _ => pyMul s.acc (pyDiv cur0 (FloatVal.finite 100))
    set_current s (format_number cur)

/-- `CalculatorApp.clear_entry_or_all`: entry clear (`C`) when there is live
input or a just-shown result, otherwise full reset (`AC`) that re-applies the
displayed text. -/
def clear_entry_or_all (s : CalcState) : CalcState :=
  if s.has_input || s.just_evaluated then
    let s2 := set_current s "0"
    { s2 with just_evaluated := false, has_input := false }
  else
    let saved := s.current
    let s2 := reset_all
    { s2 with current := saved, has_input := decide (saved ≠ "0") }

/-- `CalculatorApp.backspace`. -/
def backspace (s : CalcState) : CalcState :=
  if s.just_evaluated then s
  else if s.current.data.length ≤ 1 ∨
      (s.current.data.length = 2 ∧ s.current.data.head? = some '-') then
    set_current s "0"
  else
    set_current s (String.mk s.current.data.dropLast)

/-- `CalculatorApp.set_operator(op)`: clear `just_evaluated`, parse the current
text (defaulting to `0.0`), start or fold the chain, record the operator. -/
def set_operator (op : Op) (s : CalcState) : CalcState :=
  let s := if s.just_evaluated then { s with just_evaluated := false } else s
  let cur := (pyFloat s.current).getD (FloatVal.finite 0)
  let s :=
    match s.operator with
    | none => { s with acc := cur }
    | some op0 => { s with acc := apply_operator s.acc cur op0 }
  { s with
    operator := some op
    last_operator := none
    last_operand := none
    awaiting_operand := true }

/-- `CalculatorApp.equals`. -/
def equals (s : CalcState) : CalcState :=
  let cur := (pyFloat s.current).getD (FloatVal.finite 0)
  match s.operator with
  | none =>
    let result :=
      match s.last_operator, s.last_operand with
      | some lop, some lod => apply_operator cur lod lop
      | _, _ => cur
    let s2 := set_current s (format_number result)
    { s2 with just_evaluated := true }
  | some op =>
    let result := apply_operator s.acc cur op
    let s2 := { s with last_operator := some op, last_operand := some cur, operator := none }
    let s3 := set_current s2 (format_number result)
    { s3 with just_evaluated := true }

/-- The eight public events of the calculator core. -/
inductive Event where
  | digit (d : Fin 10)
  | dot
  | sign
  | pct
  | op (o : Op)
  | eq
  | clear
  | back
deriving DecidableEq, Repr

/-- Deliver one event to the state machine. -/
def step (s : CalcState) : Event → CalcState
  | Event.digit d => append_digit s (digitChar d.val)
  | Event.dot => input_dot s
  | Event.sign => toggle_sign s
  | Event.pct => percent s
  | Event.op o => set_operator o s
  | Event.eq => equals s
  | Event.clear => clear_entry_or_all s
  | Event.back => backspace s

/-- Run an event sequence from the initial state (`reset_all` is called by
`__init__`). -/
def run (es : List Event) : CalcState := es.foldl step reset_all

/-- The events `2, +, 3, *` of the chain-evaluation test. -/
def chainPre : List Event := [Event.digit 2, Event.op Op.add, Event.digit 3]

/-- The events `2, +, 3, *, 4, =` of the chain-evaluation test. -/
def chainAll : List Event :=
  [Event.digit 2, Event.op Op.add, Event.digit 3, Event.op Op.mul, Event.digit 4, Event.eq]

/-- The events `5, +, 3, =` of the repeat-equals test. -/
def repeatPre : List Event := [Event.digit 5, Event.op Op.add, Event.digit 3, Event.eq]

/-- The events `5, /, 0, =` of the division-by-zero test. -/
def divTrace : List Event := [Event.digit 5, Event.op Op.div, Event.digit 0, Event.eq]

/-- The events `1, 0, 0, +, 5, 0` of the percent-mid-chain test. -/
def pctPre : List Event :=
  [Event.digit 1, Event.digit 0, Event.digit 0, Event.op Op.add, Event.digit 5, Event.digit 0]

/-- Every character of `l` is plain ASCII.  The numeric renderings of
`_format_number` only produce ASCII characters, while the error sentinel is
Cyrillic; this separates the two. -/
def asciiStr (l : List Char) : Prop := ∀ c ∈ l, c.toNat < 128

instance (l : List Char) : Decidable (asciiStr l) := List.decidableBAll _ l

end Calc

namespace Calc

open FloatVal

/-- Every digit character is one of `'0'`–`'9'`. -/
theorem digitChar_ascii (n : ℕ) : (digitChar n).toNat < 128 := by
  unfold digitChar; split_ifs <;> decide

/-- A digit character is never the decimal point. -/
theorem digitChar_ne_dot (n : ℕ) : digitChar n ≠ '.' := by
  unfold digitChar; split_ifs <;> decide

theorem natDigitsRev_chars (fuel : ℕ) :
    ∀ (n : ℕ), ∀ c ∈ natDigitsRev fuel n, ∃ k, c = digitChar k := by
  induction fuel with
  | zero => intro n c hc; simp [natDigitsRev] at hc
  | succ f ih =>
    intro n c hc
    unfold natDigitsRev at hc
    split at hc
    · simp at hc
    · rcases List.mem_cons.mp hc with rfl | hc
      · exact ⟨n % 10, rfl⟩
      · exact ih _ c hc

theorem natStr_chars (n : ℕ) : ∀ c ∈ natStr n, ∃ k, c = digitChar k := by
  intro c hc
  unfold natStr at hc
  split at hc
  · simp at hc
    exact ⟨0, by rw [hc]; decide⟩
  · exact natDigitsRev_chars _ _ c (List.mem_reverse.mp hc)

theorem asciiStr_append {l1 l2 : List Char} (h1 : asciiStr l1) (h2 : asciiStr l2) :
    asciiStr (l1 ++ l2) := by
  intro c hc
  rcases List.mem_append.mp hc with h | h
  exacts [h1 c h, h2 c h]

theorem asciiStr_cons {c : Char} {l : List Char} (hc : c.toNat < 128) (h : asciiStr l) :
    asciiStr (c :: l) := by
  intro x hx
  rcases List.mem_cons.mp hx with rfl | hx
  exacts [hc, h x hx]

theorem asciiStr_subset {l1 l2 : List Char} (hs : l1 ⊆ l2) (h : asciiStr l2) : asciiStr l1 :=
  fun c hc => h c (hs hc)

theorem asciiStr_natStr (n : ℕ) : asciiStr (natStr n) := by
  intro c hc
  rcases natStr_chars n c hc with ⟨k, rfl⟩
  exact digitChar_ascii k

theorem asciiStr_replicate (k : ℕ) : asciiStr (List.replicate k '0') := by
  intro c hc
  rw [List.eq_of_mem_replicate hc]
  decide

theorem asciiStr_stripTrail (c : Char) {l : List Char} (h : asciiStr l) :
    asciiStr (stripTrail c l) := by
  intro x hx
  exact h x (List.mem_reverse.mp
    ((List.dropWhile_sublist _).subset (List.mem_reverse.mp hx)))

theorem asciiStr_rstrip {l : List Char} (h : asciiStr l) : asciiStr (rstrip0dot l) :=
  asciiStr_stripTrail _ (asciiStr_stripTrail _ h)

theorem asciiStr_fixedStr {ds : List Char} (h : asciiStr ds) (X : ℤ) :
    asciiStr (fixedStr ds X) := by
  unfold fixedStr
  split
  · dsimp only
    split
    · exact asciiStr_subset (List.take_subset _ _) h
    · exact asciiStr_append (asciiStr_subset (List.take_subset _ _) h)
        (asciiStr_cons (by decide) (asciiStr_subset (List.drop_subset _ _) h))
  · exact asciiStr_cons (by decide) (asciiStr_cons (by decide)
      (asciiStr_append (asciiStr_replicate _) h))

theorem asciiStr_expoStr (X : ℤ) : asciiStr (expoStr X) := by
  unfold expoStr
  dsimp only
  refine asciiStr_cons (by split <;> decide) ?_
  split
  · exact asciiStr_cons (by decide) (asciiStr_natStr _)
  · exact asciiStr_natStr _

theorem asciiStr_sgn (q : ℚ) : asciiStr (if q < 0 then ['-'] else ([] : List Char)) := by
  split <;> decide

theorem asciiStr_fmtGFin (p : ℕ) (q : ℚ) : asciiStr (fmtGFin p q) := by
  unfold fmtGFin
  split
  · decide
  · dsimp only
    split
    · refine asciiStr_append (asciiStr_sgn q) ?_
      split
      · exact asciiStr_rstrip (asciiStr_fixedStr (asciiStr_natStr _) _)
      · exact asciiStr_fixedStr (asciiStr_natStr _) _
    · split
      · exact asciiStr_append (asciiStr_sgn q) (by decide)
      · rename_i d rest heq
        have hds : asciiStr (d :: rest) := by
          rw [← heq]; exact asciiStr_natStr _
        refine asciiStr_append (asciiStr_sgn q) ?_
        refine asciiStr_cons (hds d (List.mem_cons_self d rest)) ?_
        refine asciiStr_append ?_ (asciiStr_cons (by decide) (asciiStr_expoStr _))
        split
        · decide
        · exact asciiStr_cons (by decide)
            (asciiStr_stripTrail _ (fun c hc => hds c (List.mem_cons_of_mem d hc)))

theorem asciiStr_fmtFFin (p : ℕ) (q : ℚ) : asciiStr (fmtFFin p q) := by
  unfold fmtFFin
  dsimp only
  refine asciiStr_append (asciiStr_append (asciiStr_sgn q) (asciiStr_natStr _)) ?_
  exact asciiStr_cons (by decide) (asciiStr_append (asciiStr_replicate _) (asciiStr_natStr _))

theorem asciiStr_fmtEFin (p : ℕ) (q : ℚ) : asciiStr (fmtEFin p q) := by
  unfold fmtEFin
  split
  · refine asciiStr_cons (by decide) (asciiStr_cons (by decide) ?_)
    exact asciiStr_append (asciiStr_replicate _) (by decide)
  · dsimp only
    split
    · exact asciiStr_append (asciiStr_sgn q) (by decide)
    · rename_i d rest heq
      have hds : asciiStr (d :: rest) := by
        rw [← heq]; exact asciiStr_natStr _
      refine asciiStr_append (asciiStr_sgn q) ?_
      refine asciiStr_cons (hds d (List.mem_cons_self d rest)) ?_
      refine asciiStr_cons (by decide) ?_
      refine asciiStr_append (fun c hc => hds c (List.mem_cons_of_mem d hc)) ?_
      exact asciiStr_cons (by decide) (asciiStr_expoStr _)

theorem asciiStr_formatChars_finite (q : ℚ) : asciiStr (formatChars (FloatVal.finite q)) := by
  have hg : asciiStr (fmtG 12 (FloatVal.finite q)) := asciiStr_fmtGFin 12 q
  have hf : asciiStr (fmtF 12 (FloatVal.finite q)) := asciiStr_fmtFFin 12 q
  have he : asciiStr (fmtE 6 (FloatVal.finite q)) := asciiStr_fmtEFin 6 q
  unfold formatChars
  rw [if_neg (by intro h; rcases h with h | h <;> exact FloatVal.noConfusion h)]
  dsimp only
  revert hg hf he
  generalize fmtG 12 (FloatVal.finite q) = G
  generalize fmtF 12 (FloatVal.finite q) = F
  generalize fmtE 6 (FloatVal.finite q) = E
  intro hg hf he
  repeat' split
  all_goals first
    | exact he
    | exact hg
    | exact asciiStr_rstrip hg
    | exact asciiStr_rstrip hf
    | exact asciiStr_rstrip (asciiStr_rstrip hf)

/-- C3 counterexample: negative infinity is infinite, yet `_format_number`
does not return the error sentinel for it — its guard only catches positive
infinity and NaN, so `-inf` falls through to the `"%0.12g"` rendering. -/
theorem C3_infinite_format_cex :
    format_number FloatVal.negInf = "-inf" ∧ format_number FloatVal.negInf ≠ errStr := by
  constructor <;> decide

/-- C3 amended: `_format_number` returns the error sentinel exactly for
positive infinity and NaN; negative infinity renders as `"-inf"`, and a
finite value never yields the sentinel (its rendering is all ASCII while the
sentinel is Cyrillic). -/
theorem C3_infinite_format_amended :
    format_number FloatVal.posInf = errStr
      ∧ format_number FloatVal.nan = errStr
      ∧ format_number FloatVal.negInf = "-inf"
      ∧ ∀ q : ℚ, format_number (FloatVal.finite q) ≠ errStr := by
  refine ⟨by decide, by decide, by decide, ?_⟩
  intro q h
  have hdata : formatChars (FloatVal.finite q) = errStr.data := congrArg String.data h
  have hmem : ('О' : Char) ∈ formatChars (FloatVal.finite q) := by
    rw [hdata]; decide
  have := asciiStr_formatChars_finite q _ hmem
  revert this
  decide

/-- C1: with a pending operator, `set_operator` first folds the pending
operation into the accumulator — `acc` becomes
`apply_operator acc (parse current) pendingOp` — before recording the new
operator and setting `awaiting_operand`; on `2, +, 3, *, 4, =` the
accumulator is `5` at the `*` press and the final display is `20`. -/
theorem C1_chain_evaluation :
    (∀ (s : CalcState) (op0 op1 : Op), s.operator = some op0 →
        (set_operator op1 s).acc
            = apply_operator s.acc ((pyFloat s.current).getD (FloatVal.finite 0)) op0
          ∧ (set_operator op1 s).operator = some op1
          ∧ (set_operator op1 s).awaiting_operand = true)
      ∧ (run (chainPre ++ [Event.op Op.mul])).acc = FloatVal.finite 5
      ∧ (run chainAll).current = "20" := by
  refine ⟨?_, by decide, by decide⟩
  intro s op0 op1 h
  rcases s with ⟨a, c, o, lo, ld, je, aw, hi⟩
  cases h
  cases je <;> exact ⟨rfl, rfl, rfl⟩

/-- Witness for C1 at the state reached by `2, +, 3`, whose pending operator
is `+`: pressing `*` folds the accumulator to `2 + 3`. -/
theorem C1_chain_evaluation_witness :
    (set_operator Op.mul (run chainPre)).acc
      = apply_operator (run chainPre).acc
          ((pyFloat (run chainPre).current).getD (FloatVal.finite 0)) Op.add :=
  (C1_chain_evaluation.1 (run chainPre) Op.add Op.mul (by decide)).1

/-- C2: `equals` with no pending operator re-applies the remembered pair when
it is set — the result is `apply_operator (parse current) lastOperand
lastOperator` — and otherwise just reformats `parse current`; on
`5, +, 3, =, =` the display is `8` then `11`. -/
theorem C2_repeat_equals :
    (∀ (s : CalcState) (lop : Op) (lod : FloatVal),
        s.operator = none → s.last_operator = some lop → s.last_operand = some lod →
        (equals s).current
          = format_number
              (apply_operator ((pyFloat s.current).getD (FloatVal.finite 0)) lod lop))
      ∧ (∀ s : CalcState,
        s.operator = none → s.last_operator = none ∨ s.last_operand = none →
        (equals s).current = format_number ((pyFloat s.current).getD (FloatVal.finite 0)))
      ∧ (run repeatPre).current = "8"
      ∧ (run (repeatPre ++ [Event.eq])).current = "11" := by
  refine ⟨?_, ?_, by decide, by decide⟩
  · intro s lop lod h1 h2 h3
    rcases s with ⟨a, c, o, lo, ld, je, aw, hi⟩
    cases h1; cases h2; cases h3
    rfl
  · intro s h1 h2
    rcases s with ⟨a, c, o, lo, ld, je, aw, hi⟩
    cases h1
    rcases h2 with h2 | h2
    · cases h2; rcases ld with _ | ld <;> rfl
    · cases h2; rcases lo with _ | lo <;> rfl

/-- Witness for C2 at the state reached by `5, +, 3, =`, whose repeat memory
is `(+, 3)` and whose display is `8`: a second `=` re-applies `+ 3`. -/
theorem C2_repeat_equals_witness :
    (equals (run repeatPre)).current
      = format_number
          (apply_operator ((pyFloat (run repeatPre).current).getD (FloatVal.finite 0))
            (FloatVal.finite 3) Op.add) :=
  C2_repeat_equals.1 (run repeatPre) Op.add (FloatVal.finite 3)
    (by decide) (by decide) (by decide)

/-- C4: dividing any numerator by zero yields positive infinity instead of
raising (`except ZeroDivisionError: return float("inf")`), and the event
sequence `5, /, 0, =` leaves the error sentinel in `current`. -/
theorem C4_div_by_zero :
    (∀ a : FloatVal, apply_operator a (FloatVal.finite 0) Op.div = FloatVal.posInf)
      ∧ (run divTrace).current = errStr :=
  ⟨fun _ => rfl, by decide⟩

/-- C7: when the current text parses, `percent` leaves `operator`, `acc`,
`awaiting_operand`, `last_operator` and `last_operand` unchanged and replaces
the current text by `format (current / 100)` without a pending operator or by
`format (acc * (current / 100))` with one; `2, 0, 0, %` displays `2`, and
`1, 0, 0, +, 5, 0, %` displays `50` with a following `=` giving `150`. -/
theorem C7_percent :
    (∀ (s : CalcState) (q : FloatVal), pyFloat (replaceComma s.current) = some q →
        ((percent s).operator = s.operator
            ∧ (percent s).acc = s.acc
            ∧ (percent s).awaiting_operand = s.awaiting_operand
            ∧ (percent s).last_operator = s.last_operator
            ∧ (percent s).last_operand = s.last_operand)
          ∧ (s.operator = none →
              (percent s).current = format_number (pyDiv q (FloatVal.finite 100)))
          ∧ ∀ o : Op, s.operator = some o →
              (percent s).current
                = format_number (pyMul s.acc (pyDiv q (FloatVal.finite 100))))
      ∧ (run [Event.digit 2, Event.digit 0, Event.digit 0, Event.pct]).current = "2"
      ∧ (run (pctPre ++ [Event.pct])).current = "50"
      ∧ (run (pctPre ++ [Event.pct, Event.eq])).current = "150" := by
  refine ⟨?_, by decide, by decide, by decide⟩
  intro s q h
  rcases s with ⟨a, c, o, lo, ld, je, aw, hi⟩
  unfold percent
  simp only at h ⊢
  rw [h]
  refine ⟨⟨rfl, rfl, rfl, rfl, rfl⟩, ?_, ?_⟩
  · intro ho; cases ho; rfl
  · intro o' ho; cases ho; rfl

/-- Witness for C7 at the state reached by `1, 0, 0, +, 5, 0`, whose text
parses as `50` and whose pending operator is `+`: `%` displays
`format (100 * (50 / 100)) = 50`. -/
theorem C7_percent_witness :
    (percent (run pctPre)).current
      = format_number
          (pyMul (run pctPre).acc (pyDiv (FloatVal.finite 50) (FloatVal.finite 100))) :=
  (C7_percent.1 (run pctPre) (FloatVal.finite 50) (by decide)).2.2 Op.add (by decide)

/-- C8: with live input or a just-shown result, `clear_entry_or_all` only
resets the current text to `"0"` and clears `just_evaluated` and `has_input`,
keeping `operator`, `acc`, `last_operator`, `last_operand` and
`awaiting_operand`; otherwise it resets every field to its initial value
except that the displayed text is kept verbatim and `has_input` is recomputed
from it. -/
theorem C8_two_tier_clear (s : CalcState) :
    clear_entry_or_all s =
      if s.has_input || s.just_evaluated then
        { s with current := "0", just_evaluated := false, has_input := false }
      else
        { reset_all with current := s.current, has_input := decide (s.current ≠ "0") } := by
  rcases s with ⟨a, c, o, lo, ld, je, aw, hi⟩
  cases je <;> cases hi <;> rfl

/-- C10: `equals` never writes the accumulator — the computed result is stored
only in `current` — so after `2, +, 3, =` the accumulator is still `2` while
the display shows `5`. -/
theorem C10_equals_acc_frame :
    (∀ s : CalcState, (equals s).acc = s.acc)
      ∧ (run [Event.digit 2, Event.op Op.add, Event.digit 3, Event.eq]).acc
          = FloatVal.finite 2
      ∧ (run [Event.digit 2, Event.op Op.add, Event.digit 3, Event.eq]).current = "5" := by
  refine ⟨?_, by decide, by decide⟩
  intro s
  rcases s with ⟨a, c, o, lo, ld, je, aw, hi⟩
  rcases o with _ | o
  · rcases lo with _ | lo <;> rcases ld with _ | ld <;> rfl
  · rfl

theorem append_digit_aw (s : CalcState) (d : Char) :
    (append_digit s d).awaiting_operand = false := by
  unfold append_digit set_current reset_all
  dsimp only
  repeat' split
  all_goals simp_all

theorem input_dot_aw (s : CalcState) : (input_dot s).awaiting_operand = false := by
  unfold input_dot set_current reset_all
  dsimp only
  repeat' split
  all_goals simp_all

theorem toggle_sign_frame (s : CalcState) :
    (toggle_sign s).operator = s.operator
      ∧ (toggle_sign s).awaiting_operand = s.awaiting_operand := by
  unfold toggle_sign set_current
  repeat' split
  all_goals exact ⟨rfl, rfl⟩

theorem percent_frame (s : CalcState) :
    (percent s).operator = s.operator
      ∧ (percent s).awaiting_operand = s.awaiting_operand := by
  unfold percent set_current
  split
  all_goals exact ⟨rfl, rfl⟩

theorem backspace_frame (s : CalcState) :
    (backspace s).operator = s.operator
      ∧ (backspace s).awaiting_operand = s.awaiting_operand := by
  unfold backspace set_current
  repeat' split
  all_goals exact ⟨rfl, rfl⟩

theorem clear_opaw (s : CalcState) :
    ((clear_entry_or_all s).operator = s.operator
        ∧ (clear_entry_or_all s).awaiting_operand = s.awaiting_operand)
      ∨ ((clear_entry_or_all s).operator = none
        ∧ (clear_entry_or_all s).awaiting_operand = false) := by
  unfold clear_entry_or_all set_current reset_all
  split
  · exact Or.inl ⟨rfl, rfl⟩
  · exact Or.inr ⟨rfl, rfl⟩

theorem set_operator_some (op : Op) (s : CalcState) :
    (set_operator op s).operator = some op := by
  unfold set_operator
  repeat' split
  all_goals rfl

theorem step_no_eq_keeps (s : CalcState) (e : Event) (he : e ≠ Event.eq)
    (h : ¬(s.operator = none ∧ s.awaiting_operand = true)) :
    ¬((step s e).operator = none ∧ (step s e).awaiting_operand = true) := by
  cases e with
  | digit d =>
    intro hc
    have := hc.2
    rw [show step s (Event.digit d) = append_digit s (digitChar d.val) from rfl,
      append_digit_aw] at this
    exact Bool.noConfusion this
  | dot =>
    intro hc
    have := hc.2
    rw [show step s Event.dot = input_dot s from rfl, input_dot_aw] at this
    exact Bool.noConfusion this
  | sign =>
    intro hc
    rcases hc with ⟨h1, h2⟩
    rw [show step s Event.sign = toggle_sign s from rfl, (toggle_sign_frame s).1] at h1
    rw [show step s Event.sign = toggle_sign s from rfl, (toggle_sign_frame s).2] at h2
    exact h ⟨h1, h2⟩
  | pct =>
    intro hc
    rcases hc with ⟨h1, h2⟩
    rw [show step s Event.pct = percent s from rfl, (percent_frame s).1] at h1
    rw [show step s Event.pct = percent s from rfl, (percent_frame s).2] at h2
    exact h ⟨h1, h2⟩
  | op o =>
    intro hc
    have := hc.1
    rw [show step s (Event.op o) = set_operator o s from rfl, set_operator_some] at this
    exact Option.noConfusion this
  | eq => exact absurd rfl he
  | clear =>
    intro hc
    rcases hc with ⟨h1, h2⟩
    rw [show step s Event.clear = clear_entry_or_all s from rfl] at h1 h2
    rcases clear_opaw s with ⟨h3, h4⟩ | ⟨h3, h4⟩
    · rw [h3] at h1; rw [h4] at h2; exact h ⟨h1, h2⟩
    · rw [h4] at h2; exact Bool.noConfusion h2
  | back =>
    intro hc
    rcases hc with ⟨h1, h2⟩
    rw [show step s Event.back = backspace s from rfl, (backspace_frame s).1] at h1
    rw [show step s Event.back = backspace s from rfl, (backspace_frame s).2] at h2
    exact h ⟨h1, h2⟩

theorem foldl_no_eq_inv (es : List Event) :
    ∀ s : CalcState, (∀ e ∈ es, e ≠ Event.eq) →
      ¬(s.operator = none ∧ s.awaiting_operand = true) →
      ¬((es.foldl step s).operator = none ∧ (es.foldl step s).awaiting_operand = true) := by
  induction es with
  | nil => intro s _ h; simpa using h
  | cons e es ih =>
    intro s hall h
    rw [List.foldl_cons]
    exact ih (step s e) (fun x hx => hall x (List.mem_cons_of_mem e hx))
      (step_no_eq_keeps s e (hall e (List.mem_cons_self e es)) h)

/-- C5 counterexample: the state reached by `2, +, =` has no pending operator
yet `awaiting_operand` is still set — `equals` clears `operator` without
clearing `awaiting_operand`, so the claimed invariant fails on a reachable
state. -/
theorem C5_invariant_cex :
    (run [Event.digit 2, Event.op Op.add, Event.eq]).operator = none
      ∧ (run [Event.digit 2, Event.op Op.add, Event.eq]).awaiting_operand = true := by
  constructor <;> decide

/-- C5 amended: `operator = none` together with `awaiting_operand = true`
never occurs in a state reachable by event sequences that contain no
`equals`; only `equals` with a pending operator can produce the combination
(it resets `operator` but leaves `awaiting_operand` untouched). -/
theorem C5_invariant_amended (es : List Event) (hne : ∀ e ∈ es, e ≠ Event.eq) :
    ¬((run es).operator = none ∧ (run es).awaiting_operand = true) :=
  foldl_no_eq_inv es reset_all hne (by decide)

/-- Witness for C5 at the equals-free sequence `2, +`. -/
theorem C5_invariant_amended_witness :
    ¬((run [Event.digit 2, Event.op Op.add]).operator = none
      ∧ (run [Event.digit 2, Event.op Op.add]).awaiting_operand = true) :=
  C5_invariant_amended [Event.digit 2, Event.op Op.add] (by decide)

theorem dotc_natStr (n : ℕ) : (natStr n).count '.' = 0 := by
  rw [List.count_eq_zero]
  intro hm
  rcases natStr_chars n _ hm with ⟨k, hk⟩
  exact digitChar_ne_dot k hk.symm

theorem dotc_stripTrail (c : Char) (l : List Char) :
    (stripTrail c l).count '.' ≤ l.count '.' := by
  unfold stripTrail
  calc (l.reverse.dropWhile (· == c)).reverse.count '.'
      = (l.reverse.dropWhile (· == c)).count '.' := List.count_reverse _ _
    _ ≤ l.reverse.count '.' := (List.dropWhile_sublist _).count_le _
    _ = l.count '.' := List.count_reverse _ _

theorem dotc_rstrip (l : List Char) : (rstrip0dot l).count '.' ≤ l.count '.' :=
  le_trans (dotc_stripTrail _ _) (dotc_stripTrail _ _)

theorem dotc_replicate (k : ℕ) : (List.replicate k '0').count '.' = 0 := by
  simp [List.count_replicate]

theorem dotc_fixedStr {ds : List Char} (h : ds.count '.' = 0) (X : ℤ) :
    (fixedStr ds X).count '.' ≤ 1 := by
  have h1 := (List.take_sublist (X.toNat + 1) ds).count_le '.'
  have h2 := (List.drop_sublist (X.toNat + 1) ds).count_le '.'
  rw [h] at h1 h2
  unfold fixedStr
  dsimp only
  split
  · split
    · omega
    · rw [List.count_append, List.count_cons_self]
      omega
  · rw [List.count_cons_of_ne (by decide : ('.' : Char) ≠ '0'), List.count_cons_self,
      List.count_append, dotc_replicate, h]

theorem dotc_expoStr (X : ℤ) : (expoStr X).count '.' = 0 := by
  rw [List.count_eq_zero]
  intro hm
  have hn : ∀ c ∈ natStr X.natAbs, c ≠ '.' := by
    intro c hc
    rcases natStr_chars _ c hc with ⟨k, rfl⟩
    exact digitChar_ne_dot k
  unfold expoStr at hm
  dsimp only at hm
  rcases List.mem_cons.mp hm with h | h
  · revert h; split <;> decide
  · revert h; split
    · intro h
      rcases List.mem_cons.mp h with h | h
      · exact absurd h (by decide)
      · exact hn _ h rfl
    · intro h
      exact hn _ h rfl

theorem dotc_sgn (q : ℚ) : (if q < 0 then ['-'] else ([] : List Char)).count '.' = 0 := by
  split <;> decide

theorem dotc_head_of_count {d : Char} {rest : List Char} (h : (d :: rest).count '.' = 0) :
    rest.count '.' = 0 ∧ ('.' : Char) ≠ d := by
  by_cases hd : ('.' : Char) = d
  · subst hd
    rw [List.count_cons_self] at h
    omega
  · rw [List.count_cons_of_ne hd] at h
    exact ⟨h, hd⟩

theorem dotc_fmtGFin (p : ℕ) (q : ℚ) : (fmtGFin p q).count '.' ≤ 1 := by
  unfold fmtGFin
  dsimp only
  split
  · decide
  · generalize hds : natStr (sigRound p |q|).1.natAbs = ds
    have hds0 : ds.count '.' = 0 := by rw [← hds]; exact dotc_natStr _
    split
    · rw [List.count_append, dotc_sgn]
      have hfix := dotc_fixedStr hds0 (sigRound p |q|).2
      split
      · have := dotc_rstrip (fixedStr ds (sigRound p |q|).2)
        omega
      · omega
    · split
      · rw [List.count_append, dotc_sgn]
        decide
      · rename_i d rest
        rcases dotc_head_of_count hds0 with ⟨hrest, hd⟩
        have hstrip := le_trans (dotc_stripTrail '0' rest) (le_of_eq hrest)
        rw [List.count_append, dotc_sgn, List.count_cons_of_ne hd, List.count_append,
          List.count_cons_of_ne (by decide : ('.' : Char) ≠ 'e'), dotc_expoStr]
        split
        · rw [List.count_nil]
          omega
        · rw [List.count_cons_self]
          omega

theorem dotc_fmtFFin (p : ℕ) (q : ℚ) : (fmtFFin p q).count '.' ≤ 1 := by
  unfold fmtFFin
  dsimp only
  rw [List.count_append, List.count_append, dotc_sgn, dotc_natStr, List.count_cons_self]
  unfold padLeft
  rw [List.count_append, dotc_replicate, dotc_natStr]

theorem dotc_fmtEFin (p : ℕ) (q : ℚ) : (fmtEFin p q).count '.' ≤ 1 := by
  unfold fmtEFin
  dsimp only
  split
  · rw [List.count_cons_of_ne (by decide : ('.' : Char) ≠ '0'), List.count_cons_self,
      List.count_append, dotc_replicate]
    have : (['e', '+', '0', '0'] : List Char).count '.' = 0 := by decide
    omega
  · generalize hds : natStr (sigRound (p + 1) |q|).1.natAbs = ds
    have hds0 : ds.count '.' = 0 := by rw [← hds]; exact dotc_natStr _
    split
    · rw [List.count_append, dotc_sgn]
      decide
    · rename_i d rest
      rcases dotc_head_of_count hds0 with ⟨hrest, hd⟩
      rw [List.count_append, dotc_sgn, List.count_cons_of_ne hd, List.count_cons_self,
        List.count_append, hrest, List.count_cons_of_ne (by decide : ('.' : Char) ≠ 'e'),
        dotc_expoStr]

theorem dotc_formatChars (v : FloatVal) : (formatChars v).count '.' ≤ 1 := by
  cases v with
  | posInf => decide
  | negInf => decide
  | nan => decide
  | finite q =>
    have hg : (fmtG 12 (FloatVal.finite q)).count '.' ≤ 1 := dotc_fmtGFin 12 q
    have hf : (fmtF 12 (FloatVal.finite q)).count '.' ≤ 1 := dotc_fmtFFin 12 q
    have he : (fmtE 6 (FloatVal.finite q)).count '.' ≤ 1 := dotc_fmtEFin 6 q
    unfold formatChars
    rw [if_neg (by intro h; rcases h with h | h <;> exact FloatVal.noConfusion h)]
    dsimp only
    revert hg hf he
    generalize fmtG 12 (FloatVal.finite q) = G
    generalize fmtF 12 (FloatVal.finite q) = F
    generalize fmtE 6 (FloatVal.finite q) = E
    intro hg hf he
    repeat' split
    all_goals first
      | exact he
      | exact hg
      | exact le_trans (dotc_rstrip _) hg
      | exact le_trans (dotc_rstrip _) hf
      | exact le_trans (dotc_rstrip _) (le_trans (dotc_rstrip _) hf)

theorem dotc_single {d : Char} (hd : d ≠ '.') : ([d] : List Char).count '.' = 0 := by
  rw [List.count_eq_zero]
  intro hm
  exact hd (List.mem_singleton.mp hm).symm

theorem dotc_append_digit (s : CalcState) (d : Char) (hd : d ≠ '.')
    (h : s.current.data.count '.' ≤ 1) :
    (append_digit s d).current.data.count '.' ≤ 1 := by
  have hd1 := dotc_single hd
  have h0 : ("0" : String).data.count '.' = 0 := by decide
  have hminus : ("-" : String).data.count '.' = 0 := by decide
  have hempty : ("" : String).data.count '.' = 0 := by decide
  unfold append_digit set_current reset_all
  dsimp only
  repeat' split
  all_goals simp_all [String.data_append, List.count_append]

theorem dotc_input_dot (s : CalcState) (h : s.current.data.count '.' ≤ 1) :
    (input_dot s).current.data.count '.' ≤ 1 := by
  have hdot : ("." : String).data.count '.' = 1 := by decide
  have h0 : ("0" : String).data.count '.' = 0 := by decide
  unfold input_dot set_current reset_all
  dsimp only
  repeat' split
  all_goals simp_all [String.data_append, List.count_append, List.count_eq_zero]

theorem dotc_toggle_sign (s : CalcState) (h : s.current.data.count '.' ≤ 1) :
    (toggle_sign s).current.data.count '.' ≤ 1 := by
  have hminus : ("-" : String).data.count '.' = 0 := by decide
  unfold toggle_sign set_current
  repeat' split
  all_goals first
    | exact h
    | exact le_trans ((List.tail_sublist _).count_le '.') h

theorem dotc_percent (s : CalcState) (h : s.current.data.count '.' ≤ 1) :
    (percent s).current.data.count '.' ≤ 1 := by
  unfold percent set_current
  split
  · exact h
  · exact dotc_formatChars _

theorem dotc_clear (s : CalcState) (h : s.current.data.count '.' ≤ 1) :
    (clear_entry_or_all s).current.data.count '.' ≤ 1 := by
  unfold clear_entry_or_all set_current reset_all
  dsimp only
  split
  · exact (by decide : List.count '.' ("0" : String).data ≤ 1)
  · exact h

theorem dotc_backspace (s : CalcState) (h : s.current.data.count '.' ≤ 1) :
    (backspace s).current.data.count '.' ≤ 1 := by
  unfold backspace set_current
  repeat' split
  all_goals first
    | exact h
    | exact (by decide : List.count '.' ("0" : String).data ≤ 1)
    | exact le_trans ((List.dropLast_sublist _).count_le '.') h

theorem set_operator_current (op : Op) (s : CalcState) :
    (set_operator op s).current = s.current := by
  unfold set_operator
  dsimp only
  repeat' split
  all_goals rfl

theorem dotc_equals (s : CalcState) : (equals s).current.data.count '.' ≤ 1 := by
  unfold equals set_current
  repeat' split
  all_goals exact dotc_formatChars _

theorem step_dotc (s : CalcState) (e : Event) (h : s.current.data.count '.' ≤ 1) :
    (step s e).current.data.count '.' ≤ 1 := by
  cases e with
  | digit d => exact dotc_append_digit s _ (digitChar_ne_dot d.val) h
  | dot => exact dotc_input_dot s h
  | sign => exact dotc_toggle_sign s h
  | pct => exact dotc_percent s h
  | op o =>
    rw [show step s (Event.op o) = set_operator o s from rfl, set_operator_current]
    exact h
  | eq => exact dotc_equals s
  | clear => exact dotc_clear s h
  | back => exact dotc_backspace s h

theorem foldl_dotc (es : List Event) :
    ∀ s : CalcState, s.current.data.count '.' ≤ 1 →
      ((es.foldl step s).current.data.count '.' ≤ 1) := by
  induction es with
  | nil => intro s h; simpa using h
  | cons e es ih =>
    intro s h
    rw [List.foldl_cons]
    exact ih (step s e) (step_dotc s e h)

/-- C6 counterexample: after `5, /, 0, =` the display holds the error
sentinel; `toggle_sign` then produces `"-Ошибка"`, which differs from the
sentinel yet does not parse as a float at all — `float()` raises — so the
claimed parsability of every non-sentinel reachable display text fails. -/
theorem C6_display_cex :
    (run [Event.digit 5, Event.op Op.div, Event.digit 0, Event.eq, Event.sign]).current
        = "-Ошибка"
      ∧ (run [Event.digit 5, Event.op Op.div, Event.digit 0, Event.eq, Event.sign]).current
        ≠ errStr
      ∧ pyFloat
          (run [Event.digit 5, Event.op Op.div, Event.digit 0, Event.eq, Event.sign]).current
        = none := by
  refine ⟨by decide, by decide, by decide⟩

/-- C6 amended: in every state reachable from the initial state by any
sequence of the eight public events, `current` contains at most one `'.'`
character.  The other half of the original claim is false: a reachable
non-sentinel `current` need not parse as a finite float (see the
counterexample `"-Ошибка"`). -/
theorem C6_display_amended (es : List Event) :
    (run es).current.data.count '.' ≤ 1 :=
  foldl_dotc es reset_all (by decide)

/-- C9 counterexample: with the error sentinel as current text (reachable by
`5, /, 0, =`), `percent` does not treat the unparseable text as `0.0` — it
returns with the state unchanged, leaving the sentinel, while treating the
value as `0.0` would display `format (0 / 100) = "0"`. -/
theorem C9_totality_cex :
    (percent (run divTrace)).current = errStr
      ∧ format_number (pyDiv (FloatVal.finite 0) (FloatVal.finite 100)) = "0"
      ∧ errStr ≠ ("0" : String) := by
  refine ⟨by decide, by decide, by decide⟩

/-- C9 amended: every handler is total, and `set_operator` and `equals`
default unparseable current text to `0.0` in every branch — chain start,
chain fold, plain equals, repeat-equals (the last pair re-applied to the
defaulted `0.0`), and pending-operator equals — but `percent` instead
returns immediately with the state unchanged (`except ValueError: return`). -/
theorem C9_totality_amended :
    (∀ s : CalcState, pyFloat (replaceComma s.current) = none → percent s = s)
      ∧ (∀ (s : CalcState) (op1 : Op), pyFloat s.current = none → s.operator = none →
          (set_operator op1 s).acc = FloatVal.finite 0)
      ∧ (∀ (s : CalcState) (op1 op0 : Op), pyFloat s.current = none → s.operator = some op0 →
          (set_operator op1 s).acc = apply_operator s.acc (FloatVal.finite 0) op0)
      ∧ (∀ s : CalcState, pyFloat s.current = none → s.operator = none →
          s.last_operator = none ∨ s.last_operand = none →
          (equals s).current = format_number (FloatVal.finite 0))
      ∧ (∀ (s : CalcState) (lop : Op) (lod : FloatVal), pyFloat s.current = none →
          s.operator = none → s.last_operator = some lop → s.last_operand = some lod →
          (equals s).current = format_number (apply_operator (FloatVal.finite 0) lod lop))
      ∧ (∀ (s : CalcState) (op0 : Op), pyFloat s.current = none → s.operator = some op0 →
          (equals s).current = format_number (apply_operator s.acc (FloatVal.finite 0) op0)) := by
  refine ⟨?_, ?_, ?_, ?_, ?_, ?_⟩
  · intro s h
    unfold percent
    rw [h]
  · intro s op1 h ho
    rcases s with ⟨a, c, o, lo, ld, je, aw, hi⟩
    cases ho
    cases je <;> simp [set_operator, h]
  · intro s op1 op0 h ho
    rcases s with ⟨a, c, o, lo, ld, je, aw, hi⟩
    cases ho
    cases je <;> simp [set_operator, h]
  · intro s h ho hl
    rcases s with ⟨a, c, o, lo, ld, je, aw, hi⟩
    cases ho
    rcases hl with hl | hl
    · cases hl
      rcases ld with _ | ld <;> simp [equals, set_current, h]
    · cases hl
      rcases lo with _ | lo <;> simp [equals, set_current, h]
  · intro s lop lod h ho hlo hld
    rcases s with ⟨a, c, o, lo, ld, je, aw, hi⟩
    cases ho
    cases hlo
    cases hld
    simp [equals, set_current, h]
  · intro s op0 h ho
    rcases s with ⟨a, c, o, lo, ld, je, aw, hi⟩
    cases ho
    simp [equals, set_current, h]

/-- Witness for C9 at the state reached by `5, /, 0, =`, whose current text
is the sentinel and does not parse: `percent` leaves the state unchanged. -/
theorem C9_totality_amended_witness :
    percent (run divTrace) = run divTrace :=
  C9_totality_amended.1 (run divTrace) (by decide)

end Calc
